import Mathlib

/-!
Verification development for the podcast-library curation scripts
(`save_podcasts.py` and `eliminar_todos_los_podcasts.py`).

The Python code is shallowly embedded: every remote call is represented by
its observable outcome (a value, a qualifying transient exception, or any
other exception), sleeps are recorded as a list of durations, and dict
lookups with `.get` defaults become `Option` with `getD`.
-/

set_option maxRecDepth 4096

/-- Outcome of one attempted invocation of a wrapped remote call.
`transient` models the exceptions caught by `retry_on_timeout`
(`ReadTimeout`, `ConnectionError`, `SpotifyException`); `fatal` models any
other exception, which that decorator does not catch. -/
inductive CallResult (α : Type) : Type
  | ok (v : α)
  | transient (msg : String)
  | fatal (msg : String)
deriving DecidableEq

/-- An exception escaping from the retry wrapper to its caller. -/
inductive RetryErr : Type
  | transient (msg : String)
  | fatal (msg : String)
deriving DecidableEq

deriving instance DecidableEq for Except

/-- Result of running a retry-wrapped call: the returned value (`Except.ok
(some v)`), the Python `None` fall-through when the attempt budget is zero
(`Except.ok none`), or a re-raised exception; plus the list of `time.sleep`
durations performed between attempts, in order. -/
structure RetryOutcome (α : Type) : Type where
  result : Except RetryErr (Option α)
  sleeps : List Nat
deriving DecidableEq

/-- Embeds the `while retries < max_retries` loop of `retry_on_timeout` in
`save_podcasts.py` (lines 25-48).  `remaining` is `max_retries - retries`,
`attempt` is the 0-based index of the next call (equal to the current value
of `retries`), and `d` is `current_delay`.  On a transient error with
attempts left it records a sleep of `d` and continues with `d * backoff`;
on the final attempt it re-raises; a non-transient error re-raises at once. -/
def retryAux {α : Type} (calls : Nat → CallResult α) (backoff : Nat) :
    Nat → Nat → Nat → RetryOutcome α
  | 0, _, _ => ⟨Except.ok none, []⟩
  | r + 1, attempt, d =>
    match calls attempt with
    | CallResult.ok v => ⟨Except.ok (some v), []⟩
    | CallResult.fatal m => ⟨Except.error (RetryErr.fatal m), []⟩
    | CallResult.transient m =>
      if r = 0 then ⟨Except.error (RetryErr.transient m), []⟩
      else
        ⟨(retryAux calls backoff r (attempt + 1) (d * backoff)).result,
          d :: (retryAux calls backoff r (attempt + 1) (d * backoff)).sleeps⟩

/-- The `retry_on_timeout(max_retries, delay, backoff)` decorator applied to
a call whose successive attempts behave as `calls 0, calls 1, ...`. -/
def retryOnTimeout {α : Type} (maxRetries delay backoff : Nat)
    (calls : Nat → CallResult α) : RetryOutcome α :=
  retryAux calls backoff maxRetries 0 delay

/-- A `_safe_request` invocation (decorated with `retry_on_timeout(
max_retries=3, delay=2, backoff=2)`) of an API call returning an optional
value.  The wrapper's `None` fall-through and an API result of `None` are
collapsed, since every caller treats them alike. -/
def safeRequestOpt {β : Type} (s : Nat → CallResult (Option β)) :
    Except RetryErr (Option β) :=
  match (retryOnTimeout 3 2 2 s).result with
  | Except.error e => Except.error e
  | Except.ok none => Except.ok none
  | Except.ok (some v) => Except.ok v

/-- One page object as consumed by `_paginate_request`: `items` is the
truthy content of `page.get('items')` (a missing key or empty list both
become `[]`), and `next` is the truthiness of `page.get('next')`. -/
structure Page (α : Type) : Type where
  items : List α
  next : Bool
deriving DecidableEq

/-- The per-attempt behaviour of one `next_func` page fetch. -/
abbrev FetchScript (α : Type) : Type := Nat → CallResult (Option (Page α))

/-- Embeds the generator `_paginate_request` (`save_podcasts.py` lines
135-154) applied to an initial page, with `scripts` giving the behaviour of
the successive `self._safe_request(next_func, current)` calls.  The loop
runs while the current page is truthy and has truthy `items`; it yields the
items, then fetches the next page only when `next` is truthy, breaking on a
`None` result or on any exception (which the generator logs and swallows).
The list of scripts bounds how many next-page fetches the consumer can
observe; a run that would fetch beyond it simply ends (no claim reaches
that case, so the empty-script case merely truncates). -/
def paginateRequest {α : Type} : List (FetchScript α) → Option (Page α) → List α
  | _, none => []
  | [], some p =>
    if p.items.isEmpty then [] else p.items
  | s :: rest, some p =>
    if p.items.isEmpty then []
    else
      p.items ++
        (if p.next then
          match safeRequestOpt s with
          | Except.error _ => []
          | Except.ok none => []
          | Except.ok (some p') => paginateRequest rest (some p')
        else [])

/-- The `resume_point` dict of an episode: `fully_played` is `none` when the
key is absent. -/
structure ResumePoint : Type where
  fully_played : Option Bool
deriving DecidableEq

/-- A raw episode record as returned by the API, with `none` for absent
keys.  An absent/falsy episode object itself is modelled as `none` at the
use sites (`Option RawEpisode`). -/
structure RawEpisode : Type where
  uri : Option String
  release_date : Option String
  release_date_precision : Option String
  id : Option String
  name : Option String
  resume_point : Option ResumePoint
  is_paywall_content : Option Bool
deriving DecidableEq

/-- The dataclass `EpisodeData` of `save_podcasts.py` (lines 50-59). -/
structure EpisodeData : Type where
  uri : String
  release_date : String
  release_date_precision : String
  episode_id : String
  episode_name : String
  show_id : String
  show_name : String
deriving DecidableEq

/-- Splits a character list at every `'-'`, exactly as Python's
`str.split('-')` does (so `""` gives `[""]` and separators at the ends give
empty groups). -/
def splitDash : List Char → List (List Char)
  | [] => [[]]
  | c :: rest =>
    let r := splitDash rest
    if c = '-' then [] :: r
    else
      match r with
      | [] => [[c]]
      | g :: gs => (c :: g) :: gs

/-- The numeric value of a decimal digit character, `none` otherwise. -/
def digitVal (c : Char) : Option Nat :=
  if c = '0' then some 0
  else if c = '1' then some 1
  else if c = '2' then some 2
  else if c = '3' then some 3
  else if c = '4' then some 4
  else if c = '5' then some 5
  else if c = '6' then some 6
  else if c = '7' then some 7
  else if c = '8' then some 8
  else if c = '9' then some 9
  else none

/-- Accumulator loop for `parseDigits`. -/
def parseDigitsAux : List Char → Nat → Option Nat
  | [], acc => some acc
  | c :: rest, acc =>
    match digitVal c with
    | none => none
    | some d => parseDigitsAux rest (acc * 10 + d)

/-- Models Python `int(part)` on one component of a release date: succeeds
exactly on a non-empty string of decimal digits (the only shape a
`'-'`-separated date component can take; signs cannot survive the split and
exotic forms such as whitespace or underscores are not modelled). -/
def parseDigits : List Char → Option Nat
  | [] => none
  | c :: rest => parseDigitsAux (c :: rest) 0

/-- Models `list(map(int, self.release_date.split('-')))`: all components
must parse or the whole parse fails (Python raises `ValueError`). -/
def parseAllParts : List (List Char) → Option (List Nat)
  | [] => some []
  | g :: gs =>
    match parseDigits g, parseAllParts gs with
    | some v, some vs => some (v :: vs)
    | _, _ => none

/-- The parsed components of a release-date string, or `none` when Python's
`int` would raise on some component. -/
def parseDateParts (s : String) : Option (List Nat) :=
  parseAllParts (splitDash s.data)

/-- Embeds `EpisodeData.get_sort_key` (`save_podcasts.py` lines 61-74).
The Python method returns a tuple whose length is not fixed (for precisions
other than `'year'`/`'month'` it returns `tuple(date_parts)` as parsed), so
the key is modelled as a `List Nat`; Python's tuple ordering is the
lexicographic order `keyLt` below.  A `ValueError` from `int` or an
`IndexError` from a missing component yields the sentinel `(9999, 12, 31)`. -/
def EpisodeData.get_sort_key (ep : EpisodeData) : List Nat :=
  match parseDateParts ep.release_date with
  | none => [9999, 12, 31]
  | some parts =>
    if ep.release_date_precision = "year" then
      match parts with
      | [] => [9999, 12, 31]
      | y :: _ => [y, 1, 1]
    else if ep.release_date_precision = "month" then
      match parts with
      | y :: m :: _ => [y, m, 1]
      | _ => [9999, 12, 31]
    else parts

/-- Strict lexicographic order on sort keys, exactly Python's `<` on tuples
of integers (a proper prefix is smaller). -/
def keyLt : List Nat → List Nat → Bool
  | [], [] => false
  | [], _ :: _ => true
  | _ :: _, [] => false
  | a :: as, b :: bs => if a < b then true else if b < a then false else keyLt as bs

/-- Embeds `_is_episode_valid_for_saving` (`save_podcasts.py` lines
284-308): the record must be truthy and carry `uri`, `release_date` and
`id`; its URI must not be in the already-saved set; `resume_point.
fully_played` (with `.get` defaults) must be falsy; `is_paywall_content`
must be falsy. -/
def isEpisodeValidForSaving (ep? : Option RawEpisode) (alreadySaved : List String) : Bool :=
  match ep? with
  | none => false
  | some ep =>
    match ep.uri, ep.release_date, ep.id with
    | some uri, some _, some _ =>
      if uri ∈ alreadySaved then false
      else if ((ep.resume_point.getD ⟨none⟩).fully_played.getD false) then false
      else if ep.is_paywall_content.getD false then false
      else true
    | _, _, _ => false

/-- Construction of the `EpisodeData` value inside
`_find_oldest_unfinished_episode_in_show` (lines 256-264), with the same
`.get` defaults as the source. -/
def mkEpisodeData (showId showName : String) (ep : RawEpisode) : EpisodeData :=
  { uri := ep.uri.getD ""
    release_date := ep.release_date.getD ""
    release_date_precision := ep.release_date_precision.getD "day"
    episode_id := ep.id.getD ""
    episode_name := ep.name.getD "Sin título"
    show_id := showId
    show_name := showName }

/-- The `valid_episodes` list accumulated by the loop of
`_find_oldest_unfinished_episode_in_show`: every paginated record that
passes `_is_episode_valid_for_saving`, converted to `EpisodeData`, in
listing order. -/
def validEpisodes (showId showName : String) (episodes : List (Option RawEpisode))
    (alreadySaved : List String) : List EpisodeData :=
  episodes.filterMap fun ep? =>
    match ep? with
    | none => none
    | some ep =>
      if isEpisodeValidForSaving (some ep) alreadySaved then
        some (mkEpisodeData showId showName ep)
      else none

/-- Embeds `valid_episodes.sort(key=lambda ep: ep.get_sort_key())` followed
by `valid_episodes[0]` (lines 268-273).  Python's `list.sort` is stable, so
the first element of the sorted list is the first-listed episode whose key
is minimal; this function computes exactly that element (later elements
replace the running choice only when strictly smaller). -/
def selectOldest : List EpisodeData → Option EpisodeData
  | [] => none
  | e :: rest =>
    match selectOldest rest with
    | none => some e
    | some m => if keyLt m.get_sort_key e.get_sort_key then some m else some e

/-- Embeds `_find_oldest_unfinished_episode_in_show` (lines 234-282) on the
episode records reached by pagination for one show: filter to the valid
episodes, then select the minimum by sort key (ties to the earliest
listed), returning `none` when no episode qualifies. -/
def findOldestUnfinishedEpisodeInShow (showId showName : String)
    (episodes : List (Option RawEpisode)) (alreadySaved : List String) :
    Option EpisodeData :=
  selectOldest (validEpisodes showId showName episodes alreadySaved)

/-- One item of the saved-episodes listing as consumed by
`get_already_saved_episode_uris`: `none` for a falsy item, `some none` for
an item lacking `episode`/`uri`, `some (some uri)` otherwise. -/
abbrev SavedItem : Type := Option (Option String)

/-- The `uris` set accumulated by `get_already_saved_episode_uris`, as a
duplicate-free list in first-insertion order. -/
def collectUris (items : List SavedItem) : List String :=
  items.foldl
    (fun uris it =>
      match it with
      | some (some uri) => if uri ∈ uris then uris else uris ++ [uri]
      | _ => uris)
    []

/-- Embeds `get_already_saved_episode_uris` (`save_podcasts.py` lines
156-176): the initial `_safe_request(current_user_saved_episodes, ...)` is
`initScript`; an exception from it is caught and the (still empty) set is
returned; a falsy result skips the loop; otherwise the paginated items are
filtered for a URI and collected.  The decorator on the function itself
never fires because the body catches every exception. -/
def getAlreadySavedEpisodeUris (initScript : Nat → CallResult (Option (Page SavedItem)))
    (nextScripts : List (FetchScript SavedItem)) : List String :=
  match safeRequestOpt initScript with
  | Except.error _ => []
  | Except.ok none => []
  | Except.ok (some page) => collectUris (paginateRequest nextScripts (some page))

/-- The credentials assembled by `SpotifyOldestEpisodeManager.__init__`
(`save_podcasts.py` lines 98-102). -/
structure Credentials : Type where
  client_id : String
  client_secret : String
  redirect_uri : String
deriving DecidableEq

/-- Embeds the credential resolution of `SpotifyOldestEpisodeManager.
__init__`: `os.getenv` with hard-coded defaults.  No code path inspects
whether the environment actually supplied a value, so resolution cannot
fail. -/
def managerInitCreds (env : String → Option String) : Credentials :=
  { client_id := (env "SPOTIFY_CLIENT_ID").getD "c798243109ac4543be01179d648837d9"
    client_secret := (env "SPOTIFY_CLIENT_SECRET").getD "4ec223e6d89d43f5b87c1d6aa1b2a8c7"
    redirect_uri := (env "SPOTIFY_REDIRECT_URI").getD "http://127.0.0.1:8888/callback" }

/-- Python truthiness of an optional environment value: absent (`None`) and
the empty string are falsy. -/
def truthyEnv (v : Option String) : Bool :=
  match v with
  | none => false
  | some s => !s.isEmpty

/-- The `if not all([CLIENT_ID, CLIENT_SECRET]): raise ValueError(...)`
guard at the top of `eliminar_todos_los_podcasts`
(`eliminar_todos_los_podcasts.py` lines 14-17). -/
def eliminarCredentialGate (env : String → Option String) : Except String Unit :=
  if truthyEnv (env "SPOTIFY_CLIENT_ID") && truthyEnv (env "SPOTIFY_CLIENT_SECRET") then
    Except.ok ()
  else
    Except.error "Faltan credenciales de Spotify. Asegúrate de configurar SPOTIFY_CLIENT_ID y SPOTIFY_CLIENT_SECRET en tu archivo .env"

/-- Embeds the deletion loop of `eliminar_todos_los_podcasts` (lines
24-33) against a library model in which `current_user_saved_episodes(limit,
offset)` returns the slice `lib.drop offset |>.take limit` of the current
library and deleting an episode removes it (shifting later episodes
forward).  `batch` is the current `results['items']`; after deleting the
whole batch the next fetch uses `offset=len(results['items'])`.  `fuel`
bounds the iteration count; `lib.length + 1` always suffices because each
pass through a non-empty batch strictly shrinks the library. -/
def eliminarGo {α : Type} [DecidableEq α] : Nat → List α → List α → List α
  | 0, lib, _ => lib
  | fuel + 1, lib, batch =>
    if batch.isEmpty then lib
    else
      let lib' := lib.filter fun x => decide (x ∉ batch)
      eliminarGo fuel lib' ((lib'.drop batch.length).take 50)

/-- The whole `eliminar_todos_los_podcasts` loop run against an initial
library: first fetch is `current_user_saved_episodes(limit=50)`
(offset 0). -/
def eliminarTodos {α : Type} [DecidableEq α] (lib : List α) : List α :=
  eliminarGo (lib.length + 1) lib (lib.take 50)

/-- The full `eliminar_todos_los_podcasts` run: credential gate first (a
missing credential raises before any library operation), then the deletion
loop. -/
def eliminarTodosRun (env : String → Option String) (lib : List String) :
    Except String (List String) :=
  match eliminarCredentialGate env with
  | Except.error e => Except.error e
  | Except.ok _ => Except.ok (eliminarTodos lib)

/-- The sleep durations produced by `k` failed attempts starting from delay
`d`: `d, d*backoff, d*backoff^2, ...`. -/
def backoffSleeps (d backoff k : Nat) : List Nat :=
  (List.range k).map fun i => d * backoff ^ i

/-- The key order is irreflexive. -/
theorem keyLt_irrefl : ∀ l : List Nat, keyLt l l = false := by
  intro l
  induction l with
  | nil => rfl
  | cons a as ih => simp [keyLt, ih]

/-- The key order is asymmetric. -/
theorem keyLt_asymm : ∀ a b : List Nat, keyLt a b = true → keyLt b a = false := by
  intro a
  induction a with
  | nil =>
    intro b h
    cases b with
    | nil => simp [keyLt] at h
    | cons y ys => simp [keyLt]
  | cons x xs ih =>
    intro b h
    cases b with
    | nil => simp [keyLt] at h
    | cons y ys =>
      simp only [keyLt] at h ⊢
      by_cases hxy : x < y
      · have hyx : ¬ y < x := by omega
        simp [hxy, hyx]
      · by_cases hyx : y < x
        · simp [hxy, hyx] at h
        · simp [hxy, hyx] at h ⊢
          exact ih ys h

/-- The key order is transitive. -/
theorem keyLt_trans : ∀ a b c : List Nat,
    keyLt a b = true → keyLt b c = true → keyLt a c = true := by
  intro a
  induction a with
  | nil =>
    intro b c hab hbc
    cases b with
    | nil => simp [keyLt] at hab
    | cons y ys =>
      cases c with
      | nil => simp [keyLt] at hbc
      | cons z zs => simp [keyLt]
  | cons x xs ih =>
    intro b c hab hbc
    cases b with
    | nil => simp [keyLt] at hab
    | cons y ys =>
      cases c with
      | nil => simp [keyLt] at hbc
      | cons z zs =>
        simp only [keyLt] at hab hbc ⊢
        by_cases hxy : x < y
        · by_cases hyz : y < z
          · simp [show x < z by omega]
          · by_cases hzy : z < y
            · simp [hyz, hzy] at hbc
            · have : y = z := by omega
              subst this
              simp [hxy]
        · by_cases hyx : y < x
          · simp [hxy, hyx] at hab
          · have hxy' : x = y := by omega
            subst hxy'
            simp [show ¬ x < x by omega] at hab
            by_cases hxz : x < z
            · simp [hxz]
            · by_cases hzx : z < x
              · simp [hxz, hzx] at hbc
              · simp [hxz, hzx] at hbc ⊢
                exact ih ys zs hab hbc

/-- Two keys neither of which is below the other are equal (the order is
total). -/
theorem keyLt_connex : ∀ a b : List Nat,
    keyLt a b = false → keyLt b a = false → a = b := by
  intro a
  induction a with
  | nil =>
    intro b hab _
    cases b with
    | nil => rfl
    | cons y ys => simp [keyLt] at hab
  | cons x xs ih =>
    intro b hab hba
    cases b with
    | nil => simp [keyLt] at hba
    | cons y ys =>
      simp only [keyLt] at hab hba
      by_cases hxy : x < y
      · simp [hxy] at hab
      · by_cases hyx : y < x
        · simp [hyx] at hba
        · have hxy' : x = y := by omega
          subst hxy'
          simp [show ¬ x < x by omega] at hab hba
          rw [ih ys hab hba]

/-- `selectOldest` returns nothing exactly on the empty list. -/
theorem selectOldest_eq_none_iff (l : List EpisodeData) :
    selectOldest l = none ↔ l = [] := by
  cases l with
  | nil => simp [selectOldest]
  | cons e rest =>
    simp only [selectOldest]
    cases h : selectOldest rest with
    | none => simp
    | some m => by_cases hk : keyLt m.get_sort_key e.get_sort_key <;> simp [hk]

/-- `selectOldest` returns the first element of the list whose sort key is
minimal: everything listed before it is strictly larger and nothing listed
after it is strictly smaller — exactly the element a stable sort by key
puts first. -/
theorem selectOldest_spec : ∀ (l : List EpisodeData) (e : EpisodeData),
    selectOldest l = some e →
    ∃ l₁ l₂, l = l₁ ++ e :: l₂ ∧
      (∀ x ∈ l₁, keyLt e.get_sort_key x.get_sort_key = true) ∧
      (∀ x ∈ l₂, keyLt x.get_sort_key e.get_sort_key = false) := by
  intro l
  induction l with
  | nil => intro e h; simp [selectOldest] at h
  | cons a rest ih =>
    intro e h
    simp only [selectOldest] at h
    cases hr : selectOldest rest with
    | none =>
      rw [hr] at h
      have h2 : some a = some e := h
      injection h2 with he
      subst he
      have hrest : rest = [] := (selectOldest_eq_none_iff rest).mp hr
      subst hrest
      exact ⟨[], [], rfl, by simp, by simp⟩
    | some m =>
      rw [hr] at h
      have h2 : (if keyLt m.get_sort_key a.get_sort_key = true then some m else some a) =
          some e := h
      by_cases hk : keyLt m.get_sort_key a.get_sort_key = true
      · rw [if_pos hk] at h2
        injection h2 with he
        subst he
        obtain ⟨l₁, l₂, hsplit, h₁, h₂⟩ := ih m hr
        refine ⟨a :: l₁, l₂, by simp [hsplit], ?_, h₂⟩
        intro x hx
        rcases List.mem_cons.mp hx with hx | hx
        · subst hx; exact hk
        · exact h₁ x hx
      · have hk' : keyLt m.get_sort_key a.get_sort_key = false := by
          revert hk; cases keyLt m.get_sort_key a.get_sort_key <;> simp
        rw [if_neg hk] at h2
        injection h2 with he
        subst he
        obtain ⟨l₁, l₂, hsplit, h₁, h₂⟩ := ih m hr
        refine ⟨[], rest, rfl, by simp, ?_⟩
        intro x hx
        rw [hsplit] at hx
        rcases List.mem_append.mp hx with hx | hx
        · -- x listed before m in rest: m's key is strictly below x's
          have hmx := h₁ x hx
          by_contra hxa
          have hxa' : keyLt x.get_sort_key a.get_sort_key = true := by
            revert hxa; cases keyLt x.get_sort_key a.get_sort_key <;> simp
          have hma := keyLt_trans _ _ _ hmx hxa'
          rw [hma] at hk'
          cases hk'
        · rcases List.mem_cons.mp hx with hx | hx
          · subst hx; exact hk'
          · -- x listed after m: x's key is not below m's
            have hxm := h₂ x hx
            by_contra hxa
            have hxa' : keyLt x.get_sort_key a.get_sort_key = true := by
              revert hxa; cases keyLt x.get_sort_key a.get_sort_key <;> simp
            by_cases hmx : keyLt m.get_sort_key x.get_sort_key = true
            · have hma := keyLt_trans _ _ _ hmx hxa'
              rw [hma] at hk'
              cases hk'
            · have hmx' : keyLt m.get_sort_key x.get_sort_key = false := by
                revert hmx; cases keyLt m.get_sort_key x.get_sort_key <;> simp
              have heq := keyLt_connex _ _ hxm hmx'
              rw [heq] at hxa'
              rw [hxa'] at hk'
              cases hk'

theorem backoffSleeps_zero (d backoff : Nat) : backoffSleeps d backoff 0 = [] := rfl

theorem backoffSleeps_succ (d backoff k : Nat) :
    backoffSleeps d backoff (k + 1) = d :: backoffSleeps (d * backoff) backoff k := by
  unfold backoffSleeps
  rw [List.range_succ_eq_map, List.map_cons, List.map_map]
  have hfun : ((fun i => d * backoff ^ i) ∘ Nat.succ) = fun i => d * backoff * backoff ^ i := by
    funext i
    simp only [Function.comp, pow_succ]
    ring
  rw [hfun]
  simp

/-- If the first `k` attempts fail transiently and attempt `k` (within the
budget) succeeds with `v`, the loop returns `v` after exactly the `k`
exponential-backoff sleeps. -/
theorem retryAux_ok {α : Type} (calls : Nat → CallResult α) (backoff : Nat) (v : α) :
    ∀ (k r attempt d : Nat), k < r →
      (∀ i, i < k → ∃ m, calls (attempt + i) = CallResult.transient m) →
      calls (attempt + k) = CallResult.ok v →
      retryAux calls backoff r attempt d =
        ⟨Except.ok (some v), backoffSleeps d backoff k⟩ := by
  intro k
  induction k with
  | zero =>
    intro r attempt d hk _ hcall
    obtain ⟨r', rfl⟩ : ∃ r', r = r' + 1 := ⟨r - 1, by omega⟩
    simp only [retryAux]
    rw [show attempt + 0 = attempt from rfl] at hcall
    simp [hcall, backoffSleeps]
  | succ k ih =>
    intro r attempt d hk htrans hcall
    obtain ⟨r', rfl⟩ : ∃ r', r = r' + 1 := ⟨r - 1, by omega⟩
    obtain ⟨m, hm⟩ := htrans 0 (by omega)
    simp only [retryAux]
    rw [show attempt + 0 = attempt from rfl] at hm
    simp only [hm]
    rw [if_neg (show ¬ r' = 0 by omega)]
    have hrec := ih r' (attempt + 1) (d * backoff) (by omega)
      (fun i hi => by
        obtain ⟨m', hm'⟩ := htrans (i + 1) (by omega)
        exact ⟨m', by rw [show attempt + 1 + i = attempt + (i + 1) by omega]; exact hm'⟩)
      (by rw [show attempt + 1 + k = attempt + (k + 1) by omega]; exact hcall)
    rw [hrec, backoffSleeps_succ]

/-- If the first `k` attempts fail transiently and attempt `k` (within the
budget) raises a non-transient error, that error is re-raised at once, with
no extra sleep and no further attempt. -/
theorem retryAux_fatal {α : Type} (calls : Nat → CallResult α) (backoff : Nat) (msg : String) :
    ∀ (k r attempt d : Nat), k < r →
      (∀ i, i < k → ∃ m, calls (attempt + i) = CallResult.transient m) →
      calls (attempt + k) = CallResult.fatal msg →
      retryAux calls backoff r attempt d =
        ⟨Except.error (RetryErr.fatal msg), backoffSleeps d backoff k⟩ := by
  intro k
  induction k with
  | zero =>
    intro r attempt d hk _ hcall
    obtain ⟨r', rfl⟩ : ∃ r', r = r' + 1 := ⟨r - 1, by omega⟩
    simp only [retryAux]
    rw [show attempt + 0 = attempt from rfl] at hcall
    simp [hcall, backoffSleeps]
  | succ k ih =>
    intro r attempt d hk htrans hcall
    obtain ⟨r', rfl⟩ : ∃ r', r = r' + 1 := ⟨r - 1, by omega⟩
    obtain ⟨m, hm⟩ := htrans 0 (by omega)
    simp only [retryAux]
    rw [show attempt + 0 = attempt from rfl] at hm
    simp only [hm]
    rw [if_neg (show ¬ r' = 0 by omega)]
    have hrec := ih r' (attempt + 1) (d * backoff) (by omega)
      (fun i hi => by
        obtain ⟨m', hm'⟩ := htrans (i + 1) (by omega)
        exact ⟨m', by rw [show attempt + 1 + i = attempt + (i + 1) by omega]; exact hm'⟩)
      (by rw [show attempt + 1 + k = attempt + (k + 1) by omega]; exact hcall)
    rw [hrec, backoffSleeps_succ]

/-- If every attempt fails transiently, the loop performs all `r` attempts,
sleeps only between them (`r - 1` sleeps), and re-raises the error of the
final attempt. -/
theorem retryAux_exhaust {α : Type} (calls : Nat → CallResult α) (backoff : Nat)
    (m : Nat → String) (h : ∀ i, calls i = CallResult.transient (m i)) :
    ∀ (r attempt d : Nat), 1 ≤ r →
      retryAux calls backoff r attempt d =
        ⟨Except.error (RetryErr.transient (m (attempt + (r - 1)))),
          backoffSleeps d backoff (r - 1)⟩ := by
  intro r
  induction r with
  | zero => intro attempt d h1; exact absurd h1 (by omega)
  | succ r ih =>
    intro attempt d _
    simp only [retryAux]
    simp only [h attempt]
    cases r with
    | zero => simp [backoffSleeps]
    | succ r' =>
      rw [if_neg (show ¬ r' + 1 = 0 by omega)]
      rw [ih (attempt + 1) (d * backoff) (by omega)]
      have hidx : attempt + 1 + (r' + 1 - 1) = attempt + (r' + 1 + 1 - 1) := by omega
      rw [hidx]
      have hslp : r' + 1 + 1 - 1 = (r' + 1 - 1) + 1 := by omega
      rw [hslp, backoffSleeps_succ]

/-- The loop's behaviour depends only on the attempts within the budget. -/
theorem retryAux_congr {α : Type} (calls calls' : Nat → CallResult α) (backoff : Nat) :
    ∀ (r attempt d : Nat), (∀ i, attempt ≤ i → i < attempt + r → calls i = calls' i) →
      retryAux calls backoff r attempt d = retryAux calls' backoff r attempt d := by
  intro r
  induction r with
  | zero => intro attempt d _; rfl
  | succ r ih =>
    intro attempt d h
    have ha : calls attempt = calls' attempt := h attempt (by omega) (by omega)
    simp only [retryAux]
    rw [ha]
    cases hc : calls' attempt with
    | ok v => rfl
    | fatal m => rfl
    | transient m =>
      simp only [hc]
      by_cases hr : r = 0
      · simp [hr]
      · rw [if_neg hr, if_neg hr]
        rw [ih (attempt + 1) (d * backoff) (fun i h1 h2 => h i (by omega) (by omega))]

/-- A retry-wrapped request whose attempts all fail transiently surfaces a
transient error after exhausting the budget. -/
theorem safeRequestOpt_exhaust {β : Type} (s : Nat → CallResult (Option β))
    (h : ∀ n, ∃ m, s n = CallResult.transient m) :
    ∃ m, safeRequestOpt s = Except.error (RetryErr.transient m) := by
  classical
  choose m hm using h
  refine ⟨m 2, ?_⟩
  unfold safeRequestOpt retryOnTimeout
  rw [retryAux_exhaust s 2 m hm 3 0 2 (by omega)]

/-- If one of the next-page fetches fails on all of its retry attempts,
pagination behaves exactly as if the page chain ended there: the scripts
after the failing one are never consulted and only the items of the pages
before the failure are yielded. -/
theorem paginate_drop_failed_tail {α : Type} (s : FetchScript α)
    (hfail : ∀ n, ∃ m, s n = CallResult.transient m) :
    ∀ (pre rest : List (FetchScript α)) (p? : Option (Page α)),
      paginateRequest (pre ++ s :: rest) p? = paginateRequest pre p? := by
  obtain ⟨m, hm⟩ := safeRequestOpt_exhaust s hfail
  intro pre
  induction pre with
  | nil =>
    intro rest p?
    cases p? with
    | none => rfl
    | some p =>
      simp only [List.nil_append, paginateRequest]
      by_cases hi : p.items.isEmpty
      · simp [hi]
      · rw [if_neg hi, if_neg hi]
        cases hn : p.next with
        | false => simp
        | true => simp [hm]
  | cons q pre ih =>
    intro rest p?
    cases p? with
    | none => rfl
    | some p =>
      simp only [List.cons_append, paginateRequest]
      by_cases hi : p.items.isEmpty
      · simp [hi]
      · rw [if_neg hi, if_neg hi]
        cases hn : p.next with
        | false => simp
        | true =>
          simp only [if_pos rfl]
          congr 1
          cases hq : safeRequestOpt q with
          | error e => rfl
          | ok v =>
            cases v with
            | none => rfl
            | some p' => exact ih rest (some p')

/-- Filtering out an element that is present strictly shortens a list. -/
theorem length_filter_lt_of_mem {α : Type} (p : α → Bool) (l : List α) (x : α)
    (hx : x ∈ l) (hpx : p x = false) : (l.filter p).length < l.length := by
  induction l with
  | nil => cases hx
  | cons a t ih =>
    rcases List.mem_cons.mp hx with h | h
    · subst h
      rw [List.filter_cons_of_neg (by simp [hpx])]
      have := List.length_filter_le p t
      simp only [List.length_cons]
      omega
    · by_cases hpa : p a = true
      · rw [List.filter_cons_of_pos hpa]
        have := ih h
        simp only [List.length_cons]
        omega
      · rw [List.filter_cons_of_neg hpa]
        have := ih h
        simp only [List.length_cons]
        omega

/-- On a duplicate-free library, deleting the batch `take n` leaves exactly
`drop n`. -/
theorem filter_not_mem_take {α : Type} [DecidableEq α] (l : List α) (n : Nat) (h : l.Nodup) :
    (l.filter fun x => decide (x ∉ l.take n)) = l.drop n := by
  have hdisj : List.Disjoint (l.take n) (l.drop n) := List.disjoint_take_drop h (le_refl n)
  have key : ((l.take n ++ l.drop n).filter fun x => decide (x ∉ l.take n)) = l.drop n := by
    rw [List.filter_append]
    have h1 : ((l.take n).filter fun x => decide (x ∉ l.take n)) = [] := by
      rw [List.filter_eq_nil_iff]
      intro a ha
      simp [ha]
    have h2 : ((l.drop n).filter fun x => decide (x ∉ l.take n)) = l.drop n := by
      rw [List.filter_eq_self]
      intro a ha
      simp only [decide_eq_true_eq]
      exact fun hc => hdisj hc ha
    rw [h1, h2, List.nil_append]
  rw [List.take_append_drop] at key
  exact key

/-- The head of the current library is never deleted by the remaining
iterations of the loop as long as it is not in the pending batch: every
later batch is drawn from offset `len(batch) ≥ 1`, which skips it. -/
theorem eliminarGo_head_mem {α : Type} [DecidableEq α] :
    ∀ (fuel : Nat) (lib batch : List α) (h : α), lib.Nodup → lib.head? = some h →
      h ∉ batch → h ∈ eliminarGo fuel lib batch := by
  intro fuel
  induction fuel with
  | zero =>
    intro lib batch h _ hh _
    cases lib with
    | nil => cases hh
    | cons a t =>
      rw [List.head?_cons] at hh
      injection hh with ha
      subst ha
      exact List.mem_cons_self _ _
  | succ fuel ih =>
    intro lib batch h hnd hh hnb
    simp only [eliminarGo]
    by_cases hb : batch.isEmpty
    · rw [if_pos hb]
      cases lib with
      | nil => cases hh
      | cons a t =>
        rw [List.head?_cons] at hh
        injection hh with ha
        subst ha
        exact List.mem_cons_self _ _
    · rw [if_neg hb]
      have hbne : batch ≠ [] := fun hc => by rw [hc] at hb; simp at hb
      obtain ⟨t, rfl⟩ : ∃ t, lib = h :: t := by
        cases lib with
        | nil => cases hh
        | cons a t =>
          rw [List.head?_cons] at hh
          injection hh with ha
          exact ⟨t, by rw [ha]⟩
      have hfh : ((h :: t).filter fun x => decide (x ∉ batch)) =
          h :: (t.filter fun x => decide (x ∉ batch)) :=
        List.filter_cons_of_pos (by simp [hnb])
      rw [hfh]
      have hnd' : (h :: (t.filter fun x => decide (x ∉ batch))).Nodup := by
        rw [← hfh]
        exact hnd.filter _
      apply ih _ _ h hnd' List.head?_cons
      intro hmem
      obtain ⟨k, hk⟩ : ∃ k, batch.length = k + 1 := by
        cases batch with
        | nil => exact absurd rfl hbne
        | cons x xs => exact ⟨xs.length, rfl⟩
      have h1 : h ∈ (h :: (t.filter fun x => decide (x ∉ batch))).drop batch.length :=
        List.take_subset _ _ hmem
      rw [hk, List.drop_succ_cons] at h1
      have h2 : h ∈ t.filter fun x => decide (x ∉ batch) := List.drop_subset _ _ h1
      exact (List.nodup_cons.mp hnd').1 h2

/-- Any fuel beyond the library size gives the same run: the loop really
terminates because each pass through a non-empty batch strictly shrinks the
library. -/
theorem eliminarGo_fuel_congr {α : Type} [DecidableEq α] :
    ∀ (f₁ f₂ : Nat) (lib batch : List α), batch ⊆ lib → lib.length < f₁ → lib.length < f₂ →
      eliminarGo f₁ lib batch = eliminarGo f₂ lib batch := by
  intro f₁
  induction f₁ with
  | zero => intro f₂ lib batch _ h1 _; exact absurd h1 (by omega)
  | succ f₁ ih =>
    intro f₂ lib batch hsub h1 h2
    obtain ⟨f₂', rfl⟩ : ∃ k, f₂ = k + 1 := ⟨f₂ - 1, by omega⟩
    simp only [eliminarGo]
    by_cases hb : batch.isEmpty
    · rw [if_pos hb, if_pos hb]
    · rw [if_neg hb, if_neg hb]
      have hbne : batch ≠ [] := fun hc => by rw [hc] at hb; simp at hb
      obtain ⟨b0, hb0⟩ : ∃ b0, b0 ∈ batch := by
        cases batch with
        | nil => exact absurd rfl hbne
        | cons x xs => exact ⟨x, List.mem_cons_self x xs⟩
      have hlt : (lib.filter fun x => decide (x ∉ batch)).length < lib.length :=
        length_filter_lt_of_mem _ _ b0 (hsub hb0) (by simp [hb0])
      apply ih
      · intro x hx
        exact List.drop_subset _ _ (List.take_subset _ _ hx)
      · omega
      · omega

/-- C1: for every show and every finite list of episode records reached by
pagination, `_find_oldest_unfinished_episode_in_show` returns an episode
only from the eligible subset (records carrying uri, release_date and id,
not in the already-saved set, not marked fully played, not paywalled), the
returned episode's sort key is less than or equal to the key of every other
eligible episode (no eligible episode's key is strictly below it), ties are
broken by original listing order (every eligible episode listed before the
returned one has a strictly larger key), and when no episode is eligible it
returns nothing. -/
theorem find_oldest_selects_stable_minimum (showId showName : String)
    (episodes : List (Option RawEpisode)) (alreadySaved : List String) :
    (findOldestUnfinishedEpisodeInShow showId showName episodes alreadySaved = none ↔
      validEpisodes showId showName episodes alreadySaved = []) ∧
    ∀ e, findOldestUnfinishedEpisodeInShow showId showName episodes alreadySaved = some e →
      (∃ raw, some raw ∈ episodes ∧ isEpisodeValidForSaving (some raw) alreadySaved = true ∧
        e = mkEpisodeData showId showName raw) ∧
      (∀ x ∈ validEpisodes showId showName episodes alreadySaved,
        keyLt x.get_sort_key e.get_sort_key = false) ∧
      (∃ l₁ l₂, validEpisodes showId showName episodes alreadySaved = l₁ ++ e :: l₂ ∧
        ∀ x ∈ l₁, keyLt e.get_sort_key x.get_sort_key = true) := by
  constructor
  · exact selectOldest_eq_none_iff (validEpisodes showId showName episodes alreadySaved)
  · intro e h
    obtain ⟨l₁, l₂, hsplit, h₁, h₂⟩ :=
      selectOldest_spec (validEpisodes showId showName episodes alreadySaved) e h
    refine ⟨?_, ?_, l₁, l₂, hsplit, h₁⟩
    · have hmem : e ∈ validEpisodes showId showName episodes alreadySaved := by
        rw [hsplit]
        exact List.mem_append_right l₁ (List.mem_cons_self e l₂)
      obtain ⟨a, ha, hfa⟩ := List.mem_filterMap.mp hmem
      cases a with
      | none => simp at hfa
      | some ep =>
        by_cases hv : isEpisodeValidForSaving (some ep) alreadySaved = true
        · refine ⟨ep, ha, hv, ?_⟩
          have hfa2 : (if isEpisodeValidForSaving (some ep) alreadySaved then
              some (mkEpisodeData showId showName ep) else none) = some e := hfa
          rw [if_pos hv] at hfa2
          injection hfa2 with he
          exact he.symm
        · have hfa2 : (if isEpisodeValidForSaving (some ep) alreadySaved then
              some (mkEpisodeData showId showName ep) else none) = some e := hfa
          rw [if_neg hv] at hfa2
          cases hfa2
    · intro x hx
      rw [hsplit] at hx
      rcases List.mem_append.mp hx with hx | hx
      · exact keyLt_asymm _ _ (h₁ x hx)
      · rcases List.mem_cons.mp hx with hx | hx
        · subst hx; exact keyLt_irrefl _
        · exact h₂ x hx

/-- Witness for C1 at a concrete show: among an eligible year-2021 episode,
an eligible month-2020-05 episode and a falsy record, the selected episode
is the 2020-05 one and the 2021 episode's key is not below it. -/
theorem find_oldest_selects_stable_minimum_witness :
    keyLt (mkEpisodeData "sh" "Show" ⟨some "spotify:episode:a", some "2021", some "year",
        some "a", some "A", none, none⟩).get_sort_key
      (mkEpisodeData "sh" "Show" ⟨some "spotify:episode:b", some "2020-05", some "month",
        some "b", some "B", none, none⟩).get_sort_key = false :=
  (((find_oldest_selects_stable_minimum "sh" "Show"
      [some ⟨some "spotify:episode:a", some "2021", some "year", some "a", some "A", none, none⟩,
        some ⟨some "spotify:episode:b", some "2020-05", some "month", some "b", some "B", none,
          none⟩, none]
      ["spotify:episode:x"]).2
    (mkEpisodeData "sh" "Show" ⟨some "spotify:episode:b", some "2020-05", some "month",
      some "b", some "B", none, none⟩) (by decide)).2.1)
    (mkEpisodeData "sh" "Show" ⟨some "spotify:episode:a", some "2021", some "year",
      some "a", some "A", none, none⟩) (by decide)

/-- Counterexample to C2: for precisions other than `'year'`/`'month'` the
method returns `tuple(date_parts)`, which need not be a triple — precision
`'day'` with date `"2020"` gives the 1-tuple `(2020,)` — and the sentinel
`(9999, 12, 31)` is not maximal: an invalid-dated episode sorts strictly
below (i.e. wins the oldest comparison against) a validly dated episode
with release date `10000-01-01`. -/
theorem get_sort_key_not_always_triple :
    (⟨"u", "2020", "day", "i", "n", "s", "S"⟩ : EpisodeData).get_sort_key = [2020] ∧
    (⟨"u", "2020", "day", "i", "n", "s", "S"⟩ : EpisodeData).get_sort_key.length ≠ 3 ∧
    (⟨"u2", "bad-date", "day", "i2", "n2", "s", "S"⟩ : EpisodeData).get_sort_key =
      [9999, 12, 31] ∧
    keyLt (⟨"u2", "bad-date", "day", "i2", "n2", "s", "S"⟩ : EpisodeData).get_sort_key
      (⟨"u3", "10000-01-01", "day", "i3", "n3", "s", "S"⟩ : EpisodeData).get_sort_key = true := by
  refine ⟨by decide, by decide, by decide, by decide⟩

/-- C2 as amended: `get_sort_key` yields `(year, 1, 1)` for precision
`'year'`, `(year, month, 1)` for precision `'month'` when a month component
was parsed, the parsed component tuple as-is (of whatever length) for any
other precision, and the sentinel `(9999, 12, 31)` when the date is
unparseable or lacks the component the precision requires; an invalid-dated
episode never sorts below an episode whose key is strictly below the
sentinel (it can win only against keys at or above `(9999, 12, 31)`). -/
theorem get_sort_key_amended (ep : EpisodeData) :
    (parseDateParts ep.release_date = none → ep.get_sort_key = [9999, 12, 31]) ∧
    (∀ y rest, ep.release_date_precision = "year" →
      parseDateParts ep.release_date = some (y :: rest) → ep.get_sort_key = [y, 1, 1]) ∧
    (∀ y m rest, ep.release_date_precision = "month" →
      parseDateParts ep.release_date = some (y :: m :: rest) → ep.get_sort_key = [y, m, 1]) ∧
    (∀ y, ep.release_date_precision = "month" →
      parseDateParts ep.release_date = some [y] → ep.get_sort_key = [9999, 12, 31]) ∧
    (∀ parts, ep.release_date_precision ≠ "year" → ep.release_date_precision ≠ "month" →
      parseDateParts ep.release_date = some parts → ep.get_sort_key = parts) ∧
    (∀ ep₂ : EpisodeData, parseDateParts ep.release_date = none →
      keyLt ep₂.get_sort_key [9999, 12, 31] = true →
      keyLt ep.get_sort_key ep₂.get_sort_key = false ∧
      keyLt ep₂.get_sort_key ep.get_sort_key = true) := by
  refine ⟨?_, ?_, ?_, ?_, ?_, ?_⟩
  · intro hp
    unfold EpisodeData.get_sort_key
    rw [hp]
  · intro y rest hprec hp
    unfold EpisodeData.get_sort_key
    simp only [hp, hprec]
    simp
  · intro y m rest hprec hp
    unfold EpisodeData.get_sort_key
    simp only [hp, hprec]
    simp
  · intro y hprec hp
    unfold EpisodeData.get_sort_key
    simp only [hp, hprec]
    simp
  · intro parts hy hm hp
    unfold EpisodeData.get_sort_key
    simp only [hp]
    rw [if_neg hy, if_neg hm]
  · intro ep₂ hp hlt
    have hsen : ep.get_sort_key = [9999, 12, 31] := by
      unfold EpisodeData.get_sort_key
      rw [hp]
    rw [hsen]
    exact ⟨keyLt_asymm _ _ hlt, hlt⟩

/-- Witness for the amended C2 at concrete episodes: a year-precision date
normalizes to January 1st, and an unparseable date gets the sentinel and
does not sort below a 2020 episode. -/
theorem get_sort_key_amended_witness :
    (⟨"u", "2021", "year", "i", "n", "s", "S"⟩ : EpisodeData).get_sort_key = [2021, 1, 1] ∧
    keyLt (⟨"u2", "oops", "day", "i2", "n2", "s", "S"⟩ : EpisodeData).get_sort_key
      (⟨"u3", "2020-05-03", "day", "i3", "n3", "s", "S"⟩ : EpisodeData).get_sort_key = false :=
  ⟨(get_sort_key_amended ⟨"u", "2021", "year", "i", "n", "s", "S"⟩).2.1 2021 [] rfl (by decide),
    ((get_sort_key_amended ⟨"u2", "oops", "day", "i2", "n2", "s", "S"⟩).2.2.2.2.2
      ⟨"u3", "2020-05-03", "day", "i3", "n3", "s", "S"⟩ (by decide) (by decide)).1⟩

/-- C3: for a show whose eligible episodes have release dates 2021
(precision year), 2020-05 (precision month) and 2020-05-03 (precision day),
the sort keys are (2021,1,1), (2020,5,1) and (2020,5,3), and the selected
oldest episode is the month-precision one with key (2020,5,1), not the
day-precision one. -/
theorem scenario_mixed_precision_selects_month :
    (⟨"ua", "2021", "year", "ia", "na", "s1", "S"⟩ : EpisodeData).get_sort_key = [2021, 1, 1] ∧
    (⟨"ub", "2020-05", "month", "ib", "nb", "s1", "S"⟩ : EpisodeData).get_sort_key =
      [2020, 5, 1] ∧
    (⟨"uc", "2020-05-03", "day", "ic", "nc", "s1", "S"⟩ : EpisodeData).get_sort_key =
      [2020, 5, 3] ∧
    findOldestUnfinishedEpisodeInShow "s1" "S"
      [some ⟨some "ua", some "2021", some "year", some "ia", some "na", none, none⟩,
        some ⟨some "ub", some "2020-05", some "month", some "ib", some "nb", none, none⟩,
        some ⟨some "uc", some "2020-05-03", some "day", some "ic", some "nc", none, none⟩] [] =
      some ⟨"ub", "2020-05", "month", "ib", "nb", "s1", "S"⟩ ∧
    findOldestUnfinishedEpisodeInShow "s1" "S"
      [some ⟨some "ua", some "2021", some "year", some "ia", some "na", none, none⟩,
        some ⟨some "ub", some "2020-05", some "month", some "ib", some "nb", none, none⟩,
        some ⟨some "uc", some "2020-05-03", some "day", some "ic", some "nc", none, none⟩] [] ≠
      some ⟨"uc", "2020-05-03", "day", "ic", "nc", "s1", "S"⟩ := by
  refine ⟨by decide, by decide, by decide, by decide, by decide⟩

/-- C4: for every wrapped call and every parameterization, the retry
wrapper returns the first successful result unchanged after exactly the
backoff sleeps `delay * backoff ^ (attempt - 1)`; when every attempt fails
transiently it performs all `maxRetries` attempts, sleeps only between them
and re-raises the final attempt's transient error; a non-transient error
propagates immediately with no retry and no additional sleep; and the
outcome depends only on the first `maxRetries` attempts. -/
theorem retry_policy_spec {α : Type} (maxRetries delay backoff : Nat)
    (calls : Nat → CallResult α) :
    (∀ k v, k < maxRetries → (∀ i, i < k → ∃ m, calls i = CallResult.transient m) →
      calls k = CallResult.ok v →
      retryOnTimeout maxRetries delay backoff calls =
        ⟨Except.ok (some v), backoffSleeps delay backoff k⟩) ∧
    (∀ m : Nat → String, 1 ≤ maxRetries → (∀ i, calls i = CallResult.transient (m i)) →
      retryOnTimeout maxRetries delay backoff calls =
        ⟨Except.error (RetryErr.transient (m (maxRetries - 1))),
          backoffSleeps delay backoff (maxRetries - 1)⟩) ∧
    (∀ k msg, k < maxRetries → (∀ i, i < k → ∃ m, calls i = CallResult.transient m) →
      calls k = CallResult.fatal msg →
      retryOnTimeout maxRetries delay backoff calls =
        ⟨Except.error (RetryErr.fatal msg), backoffSleeps delay backoff k⟩) ∧
    (∀ calls' : Nat → CallResult α, (∀ i, i < maxRetries → calls i = calls' i) →
      retryOnTimeout maxRetries delay backoff calls =
        retryOnTimeout maxRetries delay backoff calls') := by
  refine ⟨?_, ?_, ?_, ?_⟩
  · intro k v hk htrans hcall
    unfold retryOnTimeout
    exact retryAux_ok calls backoff v k maxRetries 0 delay hk
      (fun i hi => by simpa using htrans i hi) (by simpa using hcall)
  · intro m h1 hall
    unfold retryOnTimeout
    have := retryAux_exhaust calls backoff m hall maxRetries 0 delay h1
    simpa using this
  · intro k msg hk htrans hcall
    unfold retryOnTimeout
    exact retryAux_fatal calls backoff msg k maxRetries 0 delay hk
      (fun i hi => by simpa using htrans i hi) (by simpa using hcall)
  · intro calls' h
    unfold retryOnTimeout
    exact retryAux_congr calls calls' backoff maxRetries 0 delay
      (fun i _ h2 => h i (by omega))

/-- Witness for C4: a call failing once then succeeding, under
`max_retries=3, delay=1, backoff=2`, returns the success after a single
1-second sleep. -/
theorem retry_policy_spec_witness :
    retryOnTimeout 3 1 2
      (fun n => if n = 0 then CallResult.transient "t" else CallResult.ok (7 : Nat)) =
      ⟨Except.ok (some 7), backoffSleeps 1 2 1⟩ :=
  (retry_policy_spec 3 1 2
      (fun n => if n = 0 then CallResult.transient "t" else CallResult.ok (7 : Nat))).1 1 7
    (by omega)
    (fun i hi => ⟨"t", by
      have h0 : i = 0 := by omega
      subst h0
      decide⟩)
    (by decide)

/-- C5: for every page sequence, when a next-page fetch keeps failing until
the retry wrapper exhausts its attempts, iteration ends early: the run
equals the run with the page chain cut at the failure, so every item
yielded from earlier pages is preserved, the retry wrapper surfaces the
transient error (which the generator catches), and the result is a plain
list — no exception reaches the caller of the iteration. -/
theorem paginate_exhausted_retries_ends_early {α : Type} (s : FetchScript α)
    (hfail : ∀ n, ∃ m, s n = CallResult.transient m)
    (pre rest : List (FetchScript α)) (p? : Option (Page α)) :
    paginateRequest (pre ++ s :: rest) p? = paginateRequest pre p? ∧
    ∃ m, safeRequestOpt s = Except.error (RetryErr.transient m) :=
  ⟨paginate_drop_failed_tail s hfail pre rest p?, safeRequestOpt_exhaust s hfail⟩

/-- Witness for C5: with one page of items `[1, 2]` pointing at a next page
whose fetch always times out, pagination yields exactly `[1, 2]`. -/
theorem paginate_exhausted_retries_ends_early_witness :
    paginateRequest [fun _ => CallResult.transient "boom"]
        (some (⟨[1, 2], true⟩ : Page Nat)) =
      paginateRequest [] (some (⟨[1, 2], true⟩ : Page Nat)) :=
  (paginate_exhausted_retries_ends_early (fun _ => CallResult.transient "boom")
    (fun _ => ⟨"boom", rfl⟩) [] [] (some ⟨[1, 2], true⟩)).1

/-- C6: if a next-page fetch raises a transient error on the first two
attempts and succeeds on the third (within `max_retries=3`), pagination
continues with the eventually-successful page — its items are yielded right
after the current page's — after backoff sleeps of 2 and 4 seconds, and no
error is surfaced. -/
theorem paginate_retry_succeeds_third_attempt {α : Type} (p p' : Page α)
    (s : FetchScript α) (rest : List (FetchScript α)) (m₀ m₁ : String)
    (h0 : s 0 = CallResult.transient m₀) (h1 : s 1 = CallResult.transient m₁)
    (h2 : s 2 = CallResult.ok (some p'))
    (hi : p.items ≠ []) (hn : p.next = true) :
    paginateRequest (s :: rest) (some p) = p.items ++ paginateRequest rest (some p') ∧
    safeRequestOpt s = Except.ok (some p') ∧
    (retryOnTimeout 3 2 2 s).sleeps = backoffSleeps 2 2 2 := by
  have hok : retryOnTimeout 3 2 2 s = ⟨Except.ok (some (some p')), backoffSleeps 2 2 2⟩ := by
    unfold retryOnTimeout
    apply retryAux_ok s 2 (some p') 2 3 0 2 (by omega) ?_ (by simpa using h2)
    intro i hi2
    cases i with
    | zero => exact ⟨m₀, by simpa using h0⟩
    | succ j =>
      have hj : j = 0 := by omega
      subst hj
      exact ⟨m₁, by simpa using h1⟩
  have hsafe : safeRequestOpt s = Except.ok (some p') := by
    unfold safeRequestOpt
    rw [hok]
  refine ⟨?_, hsafe, by rw [hok]⟩
  simp only [paginateRequest]
  rw [if_neg (by simpa [List.isEmpty_iff] using hi), hn]
  simp [hsafe]

/-- Witness for C6 at a concrete two-page sequence with a
fails-twice-then-succeeds fetch script. -/
theorem paginate_retry_succeeds_third_attempt_witness :
    paginateRequest
        [fun n => if n = 0 then CallResult.transient "a"
          else if n = 1 then CallResult.transient "b"
          else CallResult.ok (some (⟨[3], false⟩ : Page Nat))]
        (some (⟨[1, 2], true⟩ : Page Nat)) =
      [1, 2] ++ paginateRequest [] (some (⟨[3], false⟩ : Page Nat)) :=
  (paginate_retry_succeeds_third_attempt ⟨[1, 2], true⟩ ⟨[3], false⟩
    (fun n => if n = 0 then CallResult.transient "a"
      else if n = 1 then CallResult.transient "b"
      else CallResult.ok (some (⟨[3], false⟩ : Page Nat)))
    [] "a" "b" rfl rfl rfl (by decide) rfl).1

/-- C10: as soon as `_paginate_request` holds a falsy page or a
successfully fetched page with a falsy `items` list, iteration stops — no
item is yielded and no further page is requested, whatever the scripts and
even when the page's `next` reference is set. -/
theorem paginate_stops_on_empty_items {α : Type} (p : Page α)
    (scripts : List (FetchScript α)) (hp : p.items = []) :
    paginateRequest scripts (some p) = [] ∧
    paginateRequest scripts (none : Option (Page α)) = [] ∧
    (∀ (q : Page α) (s : FetchScript α) (rest : List (FetchScript α)) (p' : Page α),
      q.items ≠ [] → q.next = true → safeRequestOpt s = Except.ok (some p') →
      p'.items = [] → paginateRequest (s :: rest) (some q) = q.items) := by
  refine ⟨?_, ?_, ?_⟩
  · cases scripts with
    | nil => simp [paginateRequest, hp]
    | cons s rest => simp [paginateRequest, hp]
  · cases scripts with
    | nil => rfl
    | cons s rest => rfl
  · intro q s rest p' hq hn hs hp'
    simp only [paginateRequest]
    rw [if_neg (by simpa [List.isEmpty_iff] using hq), hn]
    simp only [if_pos rfl, hs]
    cases rest with
    | nil => simp [paginateRequest, hp']
    | cons s' rest' => simp [paginateRequest, hp']

/-- Witness for C10: a page with no items but a set `next` reference yields
nothing, with a fetch script available that would have succeeded. -/
theorem paginate_stops_on_empty_items_witness :
    paginateRequest [fun _ => CallResult.ok (some (⟨[5], false⟩ : Page Nat))]
        (some (⟨[], true⟩ : Page Nat)) = [] :=
  (paginate_stops_on_empty_items (⟨[], true⟩ : Page Nat)
    [fun _ => CallResult.ok (some (⟨[5], false⟩ : Page Nat))] rfl).1

/-- Counterexample to C7: when the first saved-episodes page is fetched
successfully and the fetch of the second page fails until retries exhaust,
`get_already_saved_episode_uris` returns the URIs collected from the first
page — a non-empty set, not the empty set the claim requires on any
failure. -/
theorem get_saved_uris_failure_not_empty :
    safeRequestOpt
        (fun _ => (CallResult.transient "boom" : CallResult (Option (Page SavedItem)))) =
      Except.error (RetryErr.transient "boom") ∧
    getAlreadySavedEpisodeUris
        (fun _ => CallResult.ok (some ⟨[some (some "spotify:episode:u1")], true⟩))
        [fun _ => CallResult.transient "boom"] = ["spotify:episode:u1"] ∧
    ["spotify:episode:u1"] ≠ ([] : List String) := by
  refine ⟨by decide, by decide, by decide⟩

/-- C7 as amended: `get_already_saved_episode_uris` never lets an exception
escape (it is a total function into URI sets); when the initial fetch of
saved episodes fails, the error is caught and the result is the empty set;
when a later page fetch fails after retries, the result is the set of URIs
collected from the pages before the failure. -/
theorem get_saved_uris_spec (initScript : Nat → CallResult (Option (Page SavedItem)))
    (nextScripts pre rest : List (FetchScript SavedItem)) (s : FetchScript SavedItem) :
    (∀ e, safeRequestOpt initScript = Except.error e →
      getAlreadySavedEpisodeUris initScript nextScripts = []) ∧
    ((∀ n, ∃ m, s n = CallResult.transient m) →
      getAlreadySavedEpisodeUris initScript (pre ++ s :: rest) =
        getAlreadySavedEpisodeUris initScript pre) := by
  constructor
  · intro e he
    unfold getAlreadySavedEpisodeUris
    rw [he]
  · intro hfail
    unfold getAlreadySavedEpisodeUris
    cases hi : safeRequestOpt initScript with
    | error e => rfl
    | ok v =>
      cases v with
      | none => rfl
      | some page =>
        show collectUris (paginateRequest (pre ++ s :: rest) (some page)) =
          collectUris (paginateRequest pre (some page))
        rw [paginate_drop_failed_tail s hfail pre rest (some page)]

/-- Witness for the amended C7: an initial fetch that always times out
yields the empty set. -/
theorem get_saved_uris_spec_witness :
    getAlreadySavedEpisodeUris (fun _ => CallResult.transient "down") [] = [] :=
  (get_saved_uris_spec (fun _ => CallResult.transient "down") [] [] []
      (fun _ => CallResult.ok none)).1
    (RetryErr.transient "down") (by decide)

/-- Counterexample to C8: with no credentials in the environment,
`SpotifyOldestEpisodeManager.__init__` does not abort — it resolves the
hard-coded substitute credentials and proceeds. -/
theorem manager_init_defaults_on_missing_env :
    managerInitCreds (fun _ => none) =
      ⟨"c798243109ac4543be01179d648837d9", "4ec223e6d89d43f5b87c1d6aa1b2a8c7",
        "http://127.0.0.1:8888/callback"⟩ := by decide

/-- C8 as amended: `eliminar_todos_los_podcasts` does fail fatally — a
missing or empty client id or secret raises `ValueError` before any library
operation — but `save_podcasts.py`'s manager falls back to hard-coded
substitute credentials for any missing environment variable and proceeds. -/
theorem credentials_gate_spec (env : String → Option String) (lib : List String)
    (h : truthyEnv (env "SPOTIFY_CLIENT_ID") = false ∨
      truthyEnv (env "SPOTIFY_CLIENT_SECRET") = false) :
    eliminarTodosRun env lib =
      Except.error "Faltan credenciales de Spotify. Asegúrate de configurar SPOTIFY_CLIENT_ID y SPOTIFY_CLIENT_SECRET en tu archivo .env" ∧
    (env "SPOTIFY_CLIENT_ID" = none →
      (managerInitCreds env).client_id = "c798243109ac4543be01179d648837d9") ∧
    (env "SPOTIFY_CLIENT_SECRET" = none →
      (managerInitCreds env).client_secret = "4ec223e6d89d43f5b87c1d6aa1b2a8c7") := by
  refine ⟨?_, ?_, ?_⟩
  · unfold eliminarTodosRun eliminarCredentialGate
    rcases h with h | h <;> rw [h] <;> simp
  · intro he
    simp [managerInitCreds, he]
  · intro he
    simp [managerInitCreds, he]

/-- Witness for the amended C8: an empty environment aborts the deletion
script before any library operation. -/
theorem credentials_gate_spec_witness :
    eliminarTodosRun (fun _ => none) [] =
      Except.error "Faltan credenciales de Spotify. Asegúrate de configurar SPOTIFY_CLIENT_ID y SPOTIFY_CLIENT_SECRET en tu archivo .env" :=
  (credentials_gate_spec (fun _ => none) [] (Or.inl rfl)).1

/-- C9: under the shift-on-delete library model, the deletion loop of
`eliminar_todos_los_podcasts` — whose next fetch uses
`offset=len(results['items'])` of the just-deleted batch, as the definition
`eliminarGo` records — terminates (the result is fuel-independent once the
fuel exceeds the library size) and, for every duplicate-free initial
library of more than 50 episodes, ends with a non-empty set of episodes
still saved. -/
theorem eliminar_loop_strands_episodes {α : Type} [DecidableEq α] (lib : List α)
    (hnd : lib.Nodup) (hlen : 50 < lib.length) :
    eliminarTodos lib ≠ [] ∧
    ∀ fuel, lib.length < fuel → eliminarGo fuel lib (lib.take 50) = eliminarTodos lib := by
  constructor
  · unfold eliminarTodos
    simp only [eliminarGo]
    have htk : ¬ (lib.take 50).isEmpty = true := by
      rw [List.isEmpty_iff]
      intro hc
      have hcl := congrArg List.length hc
      rw [List.length_take, List.length_nil,
        Nat.min_eq_left (show 50 ≤ lib.length by omega)] at hcl
      exact absurd hcl (by decide)
    rw [if_neg htk]
    have hbl : (lib.take 50).length = 50 := by
      rw [List.length_take]
      exact Nat.min_eq_left (by omega)
    rw [hbl, filter_not_mem_take lib 50 hnd]
    have hlen' : 0 < (lib.drop 50).length := by
      rw [List.length_drop]
      omega
    cases hd : lib.drop 50 with
    | nil => rw [hd] at hlen'; cases hlen'
    | cons h t =>
      have hnd' : (h :: t).Nodup := by
        rw [← hd]
        exact List.Nodup.sublist (List.drop_sublist 50 lib) hnd
      apply List.ne_nil_of_mem
      apply eliminarGo_head_mem lib.length (h :: t) _ h hnd' List.head?_cons
      intro hmem
      have h1 : h ∈ (h :: t).drop 50 := List.take_subset _ _ hmem
      rw [show (50 : Nat) = 49 + 1 from rfl, List.drop_succ_cons] at h1
      exact (List.nodup_cons.mp hnd').1 (List.drop_subset _ _ h1)
  · intro fuel hf
    unfold eliminarTodos
    exact eliminarGo_fuel_congr fuel (lib.length + 1) lib (lib.take 50)
      (List.take_subset _ _) hf (by omega)

/-- Witness for C9: a distinct 51-episode library is not emptied by the
run. -/
theorem eliminar_loop_strands_episodes_witness :
    eliminarTodos (List.range 51) ≠ [] :=
  (eliminar_loop_strands_episodes (List.range 51) (List.nodup_range 51) (by simp)).1
